import Mathlib

/-!
Verification of the plotting/aggregation layer of `litstudy/plot.py`
(NLeSC/automated-literature-analysis).

The module is a flat set of stateless rendering helpers over a corpus of
bibliographic records.  We embed shallowly:

* Python objects (`Document`, `Author`, `Affiliation`) become structures with
  `Option` fields for attributes that may be `None`;
* the values flowing through `plot_statistic`'s generic key selectors (ints,
  strings, `None`) become the inductive `Key`, equipped with Python truthiness
  (`if key:`) and `str()`;
* a `defaultdict(int)` count table becomes an insertion-ordered association
  list `List (κ × Nat)` with lookup defaulting to `0`;
* fallible code (`min` of an empty sequence) returns `Option`;
* numpy float arithmetic in the topic-map normalisation is modelled over `ℚ`;
* the side effects of a plotting call (title, axis labels, bar charts, file
  access performed by the external cleaning routine) are made explicit by a
  state-passing embedding over `PlotState`.
-/

namespace LitStudy

/-- An affiliation record: a name plus optional country and type attributes
(`Affiliation` objects read by `plot.py`). -/
structure Affiliation where
  name : String
  country : Option String
  affiliation_type : Option String
deriving DecidableEq, Repr

/-- An author record: a name plus an optional list of affiliations
(`author.affiliations` may be `None` in the source). -/
structure Author where
  name : String
  affiliations : Option (List Affiliation)
deriving DecidableEq, Repr

/-- A bibliographic document: every attribute read by `plot.py` may be `None`. -/
structure Document where
  year : Option Int
  authors : Option (List Author)
  source : Option String
  source_type : Option String
  language : Option String
deriving DecidableEq, Repr

/-- A Python value flowing through `plot_statistic`'s key selectors:
either `None`, an `int`, or a `str`. -/
inductive Key where
  | none
  | int (n : Int)
  | str (s : String)
deriving DecidableEq, Repr

/-- Python truthiness of a key (`if key:` in the aggregation loop):
`None`, `0` and `""` are falsy. -/
def Key.truthy : Key → Bool
  | Key.none => false
  | Key.int n => n != 0
  | Key.str s => s != ""

/-- Python `str()` of a key (`count[str(key)] += 1`). -/
def Key.toStr : Key → String
  | Key.none => "None"
  | Key.int n => toString n
  | Key.str s => s

/-- Wrap an optional int attribute (such as `p.year`) as a `Key`. -/
def Key.ofIntOpt : Option Int → Key
  | Option.none => Key.none
  | some n => Key.int n

/-- Wrap an optional string attribute (such as `p.source`) as a `Key`. -/
def Key.ofStrOpt : Option String → Key
  | Option.none => Key.none
  | some s => Key.str s

/-- Add `v` to the entry of `k` in an insertion-ordered association table,
appending a fresh entry when `k` is absent.  This is `table[k] += v` on a
Python `defaultdict(int)`: an existing key keeps its position, a new key is
appended at the end. -/
def addCount {κ : Type} [DecidableEq κ] : List (κ × Nat) → κ → Nat → List (κ × Nat)
  | [], k, v => [(k, v)]
  | e :: rest, k, v =>
      if e.1 = k then (e.1, e.2 + v) :: rest else e :: addCount rest k v

/-- Look a key up in a count table, defaulting to `0` (`defaultdict(int)`
read semantics). -/
def lookupCount {κ : Type} [DecidableEq κ] (tbl : List (κ × Nat)) (k : κ) : Nat :=
  match tbl.find? (fun e => decide (e.1 = k)) with
  | some e => e.2
  | Option.none => 0

/-- The count table over strings built by `plot_statistic`. -/
def CountTable : Type := List (String × Nat)

/-- One document's contribution to the count table: the inner loop
`for key in fun(d): if key: count[str(key)] += 1`. -/
def docKeysStep (tbl : List (String × Nat)) (keys : List Key) : List (String × Nat) :=
  keys.foldl (fun t k => if k.truthy then addCount t k.toStr 1 else t) tbl

/-- The aggregation loop of `plot_statistic` (lines 42-47): a fresh
`defaultdict(int)` filled by iterating over `docset.docs`. -/
def buildCount (f : Document → List Key) (docs : List Document) : List (String × Nat) :=
  docs.foldl (fun t d => docKeysStep t (f d)) []

theorem lookup_addCount_self {κ : Type} [DecidableEq κ] (t : List (κ × Nat)) (k : κ) (v : Nat) :
    lookupCount (addCount t k v) k = lookupCount t k + v := by
  induction t with
  | nil => simp [addCount, lookupCount, List.find?]
  | cons e rest ih =>
      by_cases h : e.1 = k
      · simp [addCount, lookupCount, List.find?, h]
      · simp only [addCount, if_neg h]
        simpa [lookupCount, List.find?, h] using ih

theorem lookup_addCount_ne {κ : Type} [DecidableEq κ] (t : List (κ × Nat)) (k k' : κ) (v : Nat)
    (h : k' ≠ k) : lookupCount (addCount t k v) k' = lookupCount t k' := by
  have hk : ¬ (k = k') := fun hk => h hk.symm
  induction t with
  | nil => simp [addCount, lookupCount, List.find?, hk]
  | cons e rest ih =>
      by_cases he : e.1 = k
      · subst he
        simp [addCount, lookupCount, List.find?, hk]
      · simp only [addCount, if_neg he]
        by_cases he' : e.1 = k'
        · simp [lookupCount, List.find?, he']
        · simp only [lookupCount, List.find?, he', decide_eq_true_eq, if_neg] at ih ⊢
          simpa [he'] using ih

/-- Truthy occurrences of keys stringifying to `s` in one selector output. -/
def truthyHits (ks : List Key) (s : String) : Nat :=
  (ks.filter (fun k => k.truthy && decide (k.toStr = s))).length

theorem lookup_docKeysStep (ks : List Key) (t : List (String × Nat)) (s : String) :
    lookupCount (docKeysStep t ks) s = lookupCount t s + truthyHits ks s := by
  induction ks generalizing t with
  | nil => simp [docKeysStep, truthyHits]
  | cons k rest ih =>
      simp only [docKeysStep, List.foldl_cons] at ih ⊢
      by_cases hk : k.truthy
      · rw [if_pos hk, ih (addCount t k.toStr 1)]
        by_cases hs : k.toStr = s
        · have h2 : lookupCount (addCount t k.toStr 1) s = lookupCount t s + 1 := by
            rw [← hs]; exact lookup_addCount_self t k.toStr 1
          have h3 : truthyHits (k :: rest) s = truthyHits rest s + 1 := by
            simp [truthyHits, List.filter_cons, hk, hs]
          rw [h2, h3]; omega
        · have h2 : lookupCount (addCount t k.toStr 1) s = lookupCount t s := by
            exact lookup_addCount_ne t k.toStr s 1 (fun h => hs h.symm)
          have h3 : truthyHits (k :: rest) s = truthyHits rest s := by
            simp [truthyHits, List.filter_cons, hk, hs]
          rw [h2, h3]
      · rw [if_neg hk, ih t]
        have h3 : truthyHits (k :: rest) s = truthyHits rest s := by
          simp [truthyHits, List.filter_cons, hk]
        rw [h3]

theorem lookup_buildCount_aux (f : Document → List Key) (docs : List Document)
    (t : List (String × Nat)) (s : String) :
    lookupCount (docs.foldl (fun t d => docKeysStep t (f d)) t) s
      = lookupCount t s + (docs.map (fun d => truthyHits (f d) s)).sum := by
  induction docs generalizing t with
  | nil => simp
  | cons d rest ih =>
      simp only [List.foldl_cons, List.map_cons, List.sum_cons]
      rw [ih, lookup_docKeysStep]
      omega

theorem addCount_forall {κ : Type} [DecidableEq κ] (R : κ → Prop) (t : List (κ × Nat)) (k : κ)
    (v : Nat) (ht : ∀ e ∈ t, R e.1 ∧ 0 < e.2) (hk : R k) (hv : 0 < v) :
    ∀ e ∈ addCount t k v, R e.1 ∧ 0 < e.2 := by
  induction t with
  | nil =>
      intro e he
      simp only [addCount, List.mem_singleton] at he
      subst he
      exact ⟨hk, hv⟩
  | cons a rest ih =>
      intro e he
      by_cases ha : a.1 = k
      · simp only [addCount, if_pos ha] at he
        rcases List.mem_cons.mp he with h | h
        · subst h
          exact ⟨by rw [ha]; exact hk, Nat.add_pos_right _ hv⟩
        · exact ht e (List.mem_cons_of_mem a h)
      · simp only [addCount, if_neg ha] at he
        rcases List.mem_cons.mp he with h | h
        · subst h
          exact ht e (List.mem_cons_self e rest)
        · exact ih (fun e' he' => ht e' (List.mem_cons_of_mem a he')) e h

theorem docKeysStep_forall (R : String → Prop) (ks : List Key) (t : List (String × Nat))
    (ht : ∀ e ∈ t, R e.1 ∧ 0 < e.2) (hks : ∀ k ∈ ks, k.truthy = true → R k.toStr) :
    ∀ e ∈ docKeysStep t ks, R e.1 ∧ 0 < e.2 := by
  induction ks generalizing t with
  | nil => simpa [docKeysStep] using ht
  | cons k rest ih =>
      simp only [docKeysStep, List.foldl_cons] at ih ⊢
      by_cases hk : k.truthy
      · rw [if_pos hk]
        exact ih (addCount t k.toStr 1)
          (addCount_forall R t k.toStr 1 ht (hks k (List.mem_cons_self k rest) hk) Nat.one_pos)
          (fun k' hk' => hks k' (List.mem_cons_of_mem k hk'))
      · rw [if_neg hk]
        exact ih t ht (fun k' hk' => hks k' (List.mem_cons_of_mem k hk'))

theorem buildCount_forall_aux (R : String → Prop) (f : Document → List Key) :
    ∀ (docs : List Document) (t : List (String × Nat)),
      (∀ e ∈ t, R e.1 ∧ 0 < e.2) →
      (∀ d ∈ docs, ∀ k ∈ f d, k.truthy = true → R k.toStr) →
      ∀ e ∈ docs.foldl (fun t d => docKeysStep t (f d)) t, R e.1 ∧ 0 < e.2
  | [], t, ht, _ => by simpa using ht
  | d :: rest, t, ht, hdocs => by
      simp only [List.foldl_cons]
      exact buildCount_forall_aux R f rest _
        (docKeysStep_forall R (f d) t ht (hdocs d (List.mem_cons_self d rest)))
        (fun d' hd' => hdocs d' (List.mem_cons_of_mem d hd'))

/-- A concrete document with every attribute absent, used as concrete input. -/
def emptyDoc : Document :=
  ⟨Option.none, Option.none, Option.none, Option.none, Option.none⟩

/-- C1 counterexample: the claim quantifies over every key-selector function, but
the selector output is an arbitrary iterable; a selector that yields the same key
twice for one document makes that document add 2 (one per occurrence), not
exactly 1, to the key's tally. -/
theorem C1_counterexample :
    lookupCount (buildCount (fun _ => [Key.int 5, Key.int 5]) [emptyDoc]) "5" = 2
      ∧ (2 : Nat) ≠ 1 := by
  constructor
  · rfl
  · decide

/-- C1 (amended): the aggregation loop of `plot_statistic` counts each truthy
(present, non-zero, non-empty) key occurrence exactly once: the finished tally of
a string `s` is the total number of truthy keys stringifying to `s` over all
occurrences in all selector outputs, and falsy (absent or empty) keys contribute
nothing.  In particular a document whose selector output lists a key once
contributes exactly 1. -/
theorem C1_tally_counts_truthy_occurrences (f : Document → List Key)
    (docs : List Document) (s : String) :
    lookupCount (buildCount f docs) s
      = (docs.map (fun d => truthyHits (f d) s)).sum := by
  have h := lookup_buildCount_aux f docs [] s
  simpa [buildCount, lookupCount, List.find?] using h

/-- C7: in a `plot_statistic` call that builds its own count table, the table is
the pure value `buildCount f docs` computed from this call's arguments alone
(built fresh from the empty table, so no state is carried over between calls);
every key of the finished table is `str k` for some truthy key `k` produced by
the selector on some document of the set, and every stored tally is positive. -/
theorem C7_fresh_table_invariant (f : Document → List Key) (docs : List Document) :
    ∀ e ∈ buildCount f docs,
      (∃ d ∈ docs, ∃ k ∈ f d, k.truthy = true ∧ k.toStr = e.1) ∧ 0 < e.2 := by
  intro e he
  exact buildCount_forall_aux
    (fun s => ∃ d ∈ docs, ∃ k ∈ f d, k.truthy = true ∧ k.toStr = s) f docs []
    (by simp) (fun d hd k hk htr => ⟨d, hd, k, hk, htr, rfl⟩) e he

/-- Witness for C7 at a one-document, one-key input. -/
theorem C7_witness :
    (∃ d ∈ [emptyDoc], ∃ k ∈ [Key.str "x"], k.truthy = true ∧ k.toStr = "x")
      ∧ 0 < 1 := by
  have h := C7_fresh_table_invariant (fun _ => [Key.str "x"]) [emptyDoc]
    ("x", 1) (by decide)
  simpa using h

/-- Python list slicing `l[:k]` for an `int` bound `k`: a nonnegative bound keeps
the first `k` elements, a negative bound keeps all but the last `|k|` elements. -/
def pySliceTo {α : Type} (l : List α) (k : Int) : List α :=
  if 0 ≤ k then l.take k.toNat else l.take (l.length - (-k).toNat)

/-- `top_k` (plot.py lines 20-21):
`sorted(mapping.keys(), key=lambda x: mapping[x])[::-1][:k]` — the keys sorted
ascending by their count, reversed, then sliced.  Python's `sorted` is a stable
comparison sort, modelled by `mergeSort`. -/
def top_k (mapping : List (String × Nat)) (k : Int) : List String :=
  pySliceTo (((mapping.map Prod.fst).mergeSort
    (fun a b => decide (lookupCount mapping a ≤ lookupCount mapping b))).reverse) k

/-- The `x` argument of `plot_statistic`: `None`, a list of keys, or an `int`. -/
inductive XArg where
  | none
  | list (l : List Key)
  | int (k : Int)

/-- The key-selection branch of `plot_statistic` (lines 53-58): a list `x` is used
as is, an integer `x` selects the `x` keys with highest counts via `top_k`, and
`None` selects every key of the table. -/
def plotKeys (count : List (String × Nat)) (x : XArg) : List Key :=
  match x with
  | XArg.list l => l
  | XArg.int k => (top_k count k).map Key.str
  | XArg.none => (count.map Prod.fst).map Key.str

theorem sortedByCount_pairwise (count : List (String × Nat)) (l : List String) :
    (l.mergeSort (fun a b => decide (lookupCount count a ≤ lookupCount count b))).Pairwise
      (fun a b => lookupCount count a ≤ lookupCount count b) := by
  have h := @List.sorted_mergeSort String
    (fun a b => decide (lookupCount count a ≤ lookupCount count b))
    (fun a b c hab hbc => by simp only [decide_eq_true_eq] at *; omega)
    (fun a b => by simp only [Bool.or_eq_true, decide_eq_true_eq]; omega) l
  exact h.imp (fun hab => by simpa using hab)

/-- C2 counterexample: the claim quantifies over every integer `k`, but calling
`plot_statistic` with the integer `x = -1` on a two-key table plots one key
(Python's `[:k]` slice with a negative bound keeps all but the last element),
which is not "at most `k` elements". -/
theorem C2_counterexample :
    (plotKeys [("a", 1), ("b", 2)] (XArg.int (-1))).length = 1
      ∧ ¬ ((1 : Int) ≤ -1) := by
  constructor
  · simp [plotKeys, top_k, pySliceTo, List.mergeSort, lookupCount, List.find?]
  · decide

/-- C2 (amended): for every count table and every nonnegative integer `k`, the
keys plotted by `plot_statistic` with `x = k` are `top_k count k`: at most `k`
keys, in decreasing order of count, and every key of the table left unplotted has
a count no larger than any plotted key's count. -/
theorem C2_top_k_selects_highest_counts (count : List (String × Nat)) (k : Int)
    (hk : 0 ≤ k) :
    ((top_k count k).length : Int) ≤ k
      ∧ (top_k count k).Pairwise
          (fun a b => lookupCount count b ≤ lookupCount count a)
      ∧ (∀ a ∈ top_k count k, ∀ b ∈ count.map Prod.fst, b ∉ top_k count k →
          lookupCount count b ≤ lookupCount count a)
      ∧ plotKeys count (XArg.int k) = (top_k count k).map Key.str := by
  have hasc := sortedByCount_pairwise count (count.map Prod.fst)
  have hrev : ((count.map Prod.fst).mergeSort
      (fun a b => decide (lookupCount count a ≤ lookupCount count b))).reverse.Pairwise
      (fun a b => lookupCount count b ≤ lookupCount count a) :=
    List.pairwise_reverse.mpr hasc
  have htk : top_k count k
      = ((count.map Prod.fst).mergeSort
          (fun a b => decide (lookupCount count a ≤ lookupCount count b))).reverse.take
          k.toNat := by
    simp [top_k, pySliceTo, hk]
  refine ⟨?_, ?_, ?_, rfl⟩
  · have h1 : (top_k count k).length ≤ k.toNat := by
      rw [htk]; simp [List.length_take]
    omega
  · rw [htk]
    exact List.Pairwise.sublist (List.take_sublist _ _) hrev
  · intro a ha b hb hbn
    have hbrev : b ∈ ((count.map Prod.fst).mergeSort
        (fun a b => decide (lookupCount count a ≤ lookupCount count b))).reverse := by
      rw [List.mem_reverse, List.mem_mergeSort]; exact hb
    rw [← List.take_append_drop k.toNat (((count.map Prod.fst).mergeSort
        (fun a b => decide (lookupCount count a ≤ lookupCount count b))).reverse)]
      at hrev hbrev
    rcases List.mem_append.mp hbrev with hcase | hcase
    · exact absurd (htk ▸ hcase) hbn
    · exact (List.pairwise_append.mp hrev).2.2 a (htk ▸ ha) b hcase

/-- Witness for C2 (amended) at `k = 1` on a concrete two-key table. -/
theorem C2_witness : ((top_k [("a", 1), ("b", 2)] 1).length : Int) ≤ 1 :=
  (C2_top_k_selects_highest_counts [("a", 1), ("b", 2)] 1 (by decide)).1

/-- The body of the author loop of `merge_author_affiliation` (lines 77-82): an
author whose `affiliations` attribute is `None` contributes the single string
`author.name + ', Unknown'`; otherwise one `author.name + ', ' + affiliation.name`
string per affiliation. -/
def authorStrings (author : Author) : List String :=
  match author.affiliations with
  | Option.none => [author.name ++ ", Unknown"]
  | some affs => affs.map (fun aff => author.name ++ ", " ++ aff.name)

/-- `merge_author_affiliation` (plot.py lines 72-84): `[]` when `doc.authors` is
`None`, otherwise the Python `set` of the accumulated author+affiliation strings.
The set's iteration order is unspecified; it is modelled as deduplication of the
accumulated list. -/
def merge_author_affiliation (doc : Document) : List String :=
  match doc.authors with
  | Option.none => []
  | some authors =>
      (authors.foldl (fun acc author => acc ++ authorStrings author) []).dedup

theorem foldl_append_eq {α β : Type} (g : α → List β) :
    ∀ (l : List α) (acc : List β),
      l.foldl (fun acc a => acc ++ g a) acc = acc ++ l.flatMap g
  | [], acc => by simp
  | a :: rest, acc => by
      simp [List.foldl_cons, foldl_append_eq g rest, List.flatMap_cons]

theorem mem_authorStrings (a : Author) (s : String) :
    s ∈ authorStrings a
      ↔ (a.affiliations = Option.none ∧ s = a.name ++ ", Unknown")
        ∨ (∃ affs, a.affiliations = some affs
            ∧ ∃ aff ∈ affs, s = a.name ++ ", " ++ aff.name) := by
  cases haff : a.affiliations with
  | none => simp [authorStrings, haff]
  | some affs => simp [authorStrings, haff, eq_comm]

/-- C10: `merge_author_affiliation` returns the empty list when the document's
`authors` attribute is `None`; otherwise it returns the deduplicated set holding,
for each author whose `affiliations` attribute is `None`, the author's name
followed by `', Unknown'`, and, for each author-affiliation pair, the author's
name followed by `', '` and the affiliation's name. -/
theorem C10_merge_author_affiliation_spec (d : Document) :
    (d.authors = Option.none → merge_author_affiliation d = [])
      ∧ ∀ la, d.authors = some la →
          (merge_author_affiliation d).Nodup
            ∧ ∀ s, s ∈ merge_author_affiliation d
                ↔ (∃ a ∈ la, a.affiliations = Option.none ∧ s = a.name ++ ", Unknown")
                  ∨ (∃ a ∈ la, ∃ affs, a.affiliations = some affs
                      ∧ ∃ aff ∈ affs, s = a.name ++ ", " ++ aff.name) := by
  constructor
  · intro h
    simp [merge_author_affiliation, h]
  · intro la hla
    constructor
    · simp [merge_author_affiliation, hla, List.nodup_dedup]
    · intro s
      have hunfold : merge_author_affiliation d
          = (la.foldl (fun acc author => acc ++ authorStrings author) []).dedup := by
        simp [merge_author_affiliation, hla]
      rw [hunfold, List.mem_dedup, foldl_append_eq authorStrings la [],
        List.nil_append, List.mem_flatMap]
      constructor
      · rintro ⟨a, ha, hmem⟩
        rcases (mem_authorStrings a s).mp hmem with hc | ⟨affs, haffs, hc⟩
        · exact Or.inl ⟨a, ha, hc⟩
        · exact Or.inr ⟨a, ha, affs, haffs, hc⟩
      · rintro (⟨a, ha, hc⟩ | ⟨a, ha, affs, haffs, hc⟩)
        · exact ⟨a, ha, (mem_authorStrings a s).mpr (Or.inl hc)⟩
        · exact ⟨a, ha, (mem_authorStrings a s).mpr (Or.inr ⟨affs, haffs, hc⟩)⟩

/-- A concrete two-author document: one author without affiliations, one with a
single affiliation. -/
def twoAuthorDoc : Document :=
  ⟨Option.none,
   some [⟨"A", Option.none⟩, ⟨"B", some [⟨"U", Option.none, Option.none⟩]⟩],
   Option.none, Option.none, Option.none⟩

/-- Witness for C10: both branches discharged at concrete documents. -/
theorem C10_witness :
    merge_author_affiliation emptyDoc = []
      ∧ (merge_author_affiliation twoAuthorDoc).Nodup :=
  ⟨(C10_merge_author_affiliation_spec emptyDoc).1 rfl,
   ((C10_merge_author_affiliation_spec twoAuthorDoc).2
     [⟨"A", Option.none⟩, ⟨"B", some [⟨"U", Option.none, Option.none⟩]⟩] rfl).1⟩

/-- Python's `min` over a list: raises on an empty sequence, modelled as `none`;
on `x :: xs` it is the left fold of binary `min`. -/
def listMin {α : Type} [LinearOrder α] : List α → Option α
  | [] => Option.none
  | x :: xs => some (xs.foldl min x)

/-- Python's `max` over a list: raises on an empty sequence, modelled as `none`. -/
def listMax {α : Type} [LinearOrder α] : List α → Option α
  | [] => Option.none
  | x :: xs => some (xs.foldl max x)

theorem foldl_min_spec {α : Type} [LinearOrder α] :
    ∀ (xs : List α) (a : α),
      (xs.foldl min a = a ∨ xs.foldl min a ∈ xs)
        ∧ xs.foldl min a ≤ a ∧ ∀ x ∈ xs, xs.foldl min a ≤ x
  | [], a => ⟨Or.inl rfl, le_refl a, by simp⟩
  | y :: ys, a => by
      have h := foldl_min_spec ys (min a y)
      have hfold : (y :: ys).foldl min a = ys.foldl min (min a y) := rfl
      refine ⟨?_, ?_, ?_⟩
      · rcases h.1 with h1 | h1
        · rw [hfold, h1]
          rcases min_choice a y with hm | hm
          · exact Or.inl hm
          · exact Or.inr (by rw [hm]; exact List.mem_cons_self y ys)
        · refine Or.inr (List.mem_cons_of_mem y ?_)
          rw [hfold]
          exact h1
      · rw [hfold]
        exact le_trans h.2.1 (min_le_left a y)
      · intro x hx
        rcases List.mem_cons.mp hx with rfl | hx'
        · rw [hfold]
          exact le_trans h.2.1 (min_le_right a x)
        · rw [hfold]
          exact h.2.2 x hx'

theorem foldl_max_spec {α : Type} [LinearOrder α] :
    ∀ (xs : List α) (a : α),
      (xs.foldl max a = a ∨ xs.foldl max a ∈ xs)
        ∧ a ≤ xs.foldl max a ∧ ∀ x ∈ xs, x ≤ xs.foldl max a
  | [], a => ⟨Or.inl rfl, le_refl a, by simp⟩
  | y :: ys, a => by
      have h := foldl_max_spec ys (max a y)
      have hfold : (y :: ys).foldl max a = ys.foldl max (max a y) := rfl
      refine ⟨?_, ?_, ?_⟩
      · rcases h.1 with h1 | h1
        · rw [hfold, h1]
          rcases max_choice a y with hm | hm
          · exact Or.inl hm
          · exact Or.inr (by rw [hm]; exact List.mem_cons_self y ys)
        · refine Or.inr (List.mem_cons_of_mem y ?_)
          rw [hfold]
          exact h1
      · rw [hfold]
        exact le_trans (le_max_left a y) h.2.1
      · intro x hx
        rcases List.mem_cons.mp hx with rfl | hx'
        · rw [hfold]
          exact le_trans (le_max_right a x) h.2.1
        · rw [hfold]
          exact h.2.2 x hx'

theorem listMin_spec {α : Type} [LinearOrder α] (l : List α) (m : α)
    (h : listMin l = some m) : m ∈ l ∧ ∀ x ∈ l, m ≤ x := by
  cases l with
  | nil => exact absurd h (by simp [listMin])
  | cons x xs =>
      have hm : xs.foldl min x = m := by simpa [listMin] using h
      have hs := foldl_min_spec xs x
      constructor
      · rcases hs.1 with h1 | h1
        · rw [← hm, h1]
          exact List.mem_cons_self x xs
        · rw [← hm]
          exact List.mem_cons_of_mem x h1
      · intro z hz
        rcases List.mem_cons.mp hz with rfl | hz'
        · rw [← hm]
          exact hs.2.1
        · rw [← hm]
          exact hs.2.2 z hz'

theorem listMax_spec {α : Type} [LinearOrder α] (l : List α) (m : α)
    (h : listMax l = some m) : m ∈ l ∧ ∀ x ∈ l, x ≤ m := by
  cases l with
  | nil => exact absurd h (by simp [listMax])
  | cons x xs =>
      have hm : xs.foldl max x = m := by simpa [listMax] using h
      have hs := foldl_max_spec xs x
      constructor
      · rcases hs.1 with h1 | h1
        · rw [← hm, h1]
          exact List.mem_cons_self x xs
        · rw [← hm]
          exact List.mem_cons_of_mem x h1
      · intro z hz
        rcases List.mem_cons.mp hz with rfl | hz'
        · rw [← hm]
          exact hs.2.1
        · rw [← hm]
          exact hs.2.2 z hz'

theorem listMin_isSome {α : Type} [LinearOrder α] (l : List α) (h : l ≠ []) :
    ∃ m, listMin l = some m := by
  cases l with
  | nil => exact absurd rfl h
  | cons x xs => exact ⟨xs.foldl min x, rfl⟩

theorem listMax_isSome {α : Type} [LinearOrder α] (l : List α) (h : l ≠ []) :
    ∃ m, listMax l = some m := by
  cases l with
  | nil => exact absurd rfl h
  | cons x xs => exact ⟨xs.foldl max x, rfl⟩

/-- `list(range(lo, hi + 1))`: the integers from `lo` to `hi` inclusive. -/
def rangeInt (lo hi : Int) : List Int :=
  (List.range (hi + 1 - lo).toNat).map (fun (i : Nat) => lo + (i : Int))

theorem mem_rangeInt (lo hi y : Int) : y ∈ rangeInt lo hi ↔ lo ≤ y ∧ y ≤ hi := by
  simp only [rangeInt, List.mem_map, List.mem_range]
  constructor
  · rintro ⟨i, hi', rfl⟩
    omega
  · rintro ⟨h1, h2⟩
    exact ⟨(y - lo).toNat, by omega, by omega⟩

/-- The `year_count` table of `plot_year_histogram` (lines 94-98): a fresh
`defaultdict(int)` keyed by raw year, skipping documents whose `year` is `None`. -/
def yearCount (docs : List Document) : List (Int × Nat) :=
  docs.foldl (fun t d =>
    match d.year with
    | Option.none => t
    | some y => addCount t y 1) []

/-- The multiset of years occurring in the document set. -/
def occYears (docs : List Document) : List Int :=
  docs.filterMap Document.year

/-- `plot_year_histogram` (plot.py lines 86-104): builds `year_count`, takes
`min`/`max` of its keys — which raise on an empty key set, modelled as `none` —
and hands `plot_statistic` the list `range(min_year, max_year + 1)` as `x`. -/
def plot_year_histogram (docs : List Document) : Option (List Int) :=
  match listMin ((yearCount docs).map Prod.fst),
      listMax ((yearCount docs).map Prod.fst) with
  | some mn, some mx => some (rangeInt mn mx)
  | _, _ => Option.none

theorem mem_keys_addCount {κ : Type} [DecidableEq κ] (t : List (κ × Nat)) (k : κ)
    (v : Nat) (x : κ) :
    x ∈ (addCount t k v).map Prod.fst ↔ x ∈ t.map Prod.fst ∨ x = k := by
  induction t with
  | nil => simp [addCount]
  | cons e rest ih =>
      by_cases he : e.1 = k
      · simp only [addCount, if_pos he, List.map_cons, List.mem_cons]
        constructor
        · rintro (rfl | h)
          · exact Or.inl (Or.inl rfl)
          · exact Or.inl (Or.inr h)
        · rintro ((rfl | h) | rfl)
          · exact Or.inl rfl
          · exact Or.inr h
          · exact Or.inl he.symm
      · simp only [addCount, if_neg he, List.map_cons, List.mem_cons, ih]
        tauto

theorem mem_keys_yearCount (docs : List Document) (y : Int) :
    y ∈ (yearCount docs).map Prod.fst ↔ ∃ d ∈ docs, d.year = some y := by
  suffices h : ∀ (t : List (Int × Nat)),
      y ∈ ((docs.foldl (fun t d =>
          match d.year with
          | Option.none => t
          | some z => addCount t z 1) t).map Prod.fst)
        ↔ y ∈ t.map Prod.fst ∨ ∃ d ∈ docs, d.year = some y by
    simpa [yearCount] using h []
  induction docs with
  | nil => simp
  | cons d rest ih =>
      intro t
      simp only [List.foldl_cons]
      cases hy : d.year with
      | none =>
          rw [ih t]
          simp [hy]
      | some z =>
          rw [ih (addCount t z 1), mem_keys_addCount]
          simp only [List.mem_cons]
          constructor
          · rintro ((h | rfl) | h)
            · exact Or.inl h
            · exact Or.inr ⟨d, Or.inl rfl, hy⟩
            · obtain ⟨d', hd', hy'⟩ := h
              exact Or.inr ⟨d', Or.inr hd', hy'⟩
          · rintro (h | ⟨d', hd', hy'⟩)
            · exact Or.inl (Or.inl h)
            · rcases hd' with rfl | hd'
              · rw [hy] at hy'
                exact Or.inl (Or.inr (Option.some_inj.mp hy').symm)
              · exact Or.inr ⟨d', hd', hy'⟩

theorem mem_occYears (docs : List Document) (y : Int) :
    y ∈ occYears docs ↔ ∃ d ∈ docs, d.year = some y := by
  simp [occYears, List.mem_filterMap]

/-- C5: when no document of the set has a year (including the empty set),
`plot_year_histogram` does not produce a plot: the error from `min` over the
empty key set of the aggregation propagates, with no handling in this module. -/
theorem C5_empty_year_set_propagates (docs : List Document)
    (h : ∀ d ∈ docs, d.year = Option.none) :
    plot_year_histogram docs = Option.none := by
  have hkeys : (yearCount docs).map Prod.fst = [] := by
    by_contra hne
    obtain ⟨y, hy⟩ := List.exists_mem_of_ne_nil _ hne
    obtain ⟨d, hd, hyd⟩ := (mem_keys_yearCount docs y).mp hy
    rw [h d hd] at hyd
    exact Option.noConfusion hyd
  simp [plot_year_histogram, hkeys, listMin, listMax]

/-- Witness for C5 at the empty document set. -/
theorem C5_witness : plot_year_histogram [] = Option.none :=
  C5_empty_year_set_propagates [] (by simp)

/-- C9: when at least one document has a year, `plot_year_histogram` plots
exactly the contiguous range of years from the minimum to the maximum occurring
year: the `x` list handed to `plot_statistic` is `rangeInt mn mx` where `mn`/`mx`
are the least/greatest occurring years, and it contains an integer `y` iff
`mn ≤ y ≤ mx` (so every intermediate year appears, with a zero count coming from
the `defaultdict`). -/
theorem C9_year_histogram_contiguous_range (docs : List Document)
    (h : ∃ d ∈ docs, ∃ y, d.year = some y) :
    plot_year_histogram docs
        = some (rangeInt ((listMin (occYears docs)).getD 0)
            ((listMax (occYears docs)).getD 0))
      ∧ ((listMin (occYears docs)).getD 0) ∈ occYears docs
      ∧ ((listMax (occYears docs)).getD 0) ∈ occYears docs
      ∧ (∀ y ∈ occYears docs,
          ((listMin (occYears docs)).getD 0) ≤ y
            ∧ y ≤ ((listMax (occYears docs)).getD 0))
      ∧ (∀ y : Int,
          y ∈ rangeInt ((listMin (occYears docs)).getD 0)
              ((listMax (occYears docs)).getD 0)
            ↔ ((listMin (occYears docs)).getD 0) ≤ y
              ∧ y ≤ ((listMax (occYears docs)).getD 0)) := by
  obtain ⟨d0, hd0, y0, hy0⟩ := h
  have hy0keys : y0 ∈ (yearCount docs).map Prod.fst :=
    (mem_keys_yearCount docs y0).mpr ⟨d0, hd0, hy0⟩
  have hy0occ : y0 ∈ occYears docs := (mem_occYears docs y0).mpr ⟨d0, hd0, hy0⟩
  have hkeys_ne : (yearCount docs).map Prod.fst ≠ [] :=
    List.ne_nil_of_mem hy0keys
  have hocc_ne : occYears docs ≠ [] := List.ne_nil_of_mem hy0occ
  obtain ⟨mn, hmn⟩ := listMin_isSome _ hkeys_ne
  obtain ⟨mx, hmx⟩ := listMax_isSome _ hkeys_ne
  obtain ⟨mn', hmn'⟩ := listMin_isSome (occYears docs) hocc_ne
  obtain ⟨mx', hmx'⟩ := listMax_isSome (occYears docs) hocc_ne
  have hmnspec := listMin_spec _ mn hmn
  have hmxspec := listMax_spec _ mx hmx
  have hmnspec' := listMin_spec _ mn' hmn'
  have hmxspec' := listMax_spec _ mx' hmx'
  have hmem : ∀ z : Int,
      z ∈ (yearCount docs).map Prod.fst ↔ z ∈ occYears docs := by
    intro z
    rw [mem_keys_yearCount, mem_occYears]
  have hmn_eq : mn = mn' :=
    le_antisymm
      (hmnspec.2 mn' ((hmem mn').mpr hmnspec'.1))
      (hmnspec'.2 mn ((hmem mn).mp hmnspec.1))
  have hmx_eq : mx = mx' :=
    le_antisymm
      (hmxspec'.2 mx ((hmem mx).mp hmxspec.1))
      (hmxspec.2 mx' ((hmem mx').mpr hmxspec'.1))
  have hgd_mn : (listMin (occYears docs)).getD 0 = mn' := by rw [hmn']; rfl
  have hgd_mx : (listMax (occYears docs)).getD 0 = mx' := by rw [hmx']; rfl
  refine ⟨?_, ?_, ?_, ?_, ?_⟩
  · rw [plot_year_histogram, hmn, hmx, hgd_mn, hgd_mx, hmn_eq, hmx_eq]
  · rw [hgd_mn]
    exact hmnspec'.1
  · rw [hgd_mx]
    exact hmxspec'.1
  · intro y hy
    rw [hgd_mn, hgd_mx]
    exact ⟨hmnspec'.2 y hy, hmxspec'.2 y hy⟩
  · intro y
    exact mem_rangeInt _ _ y

/-- A single-year concrete document set. -/
def docsYears : List Document :=
  [⟨some 3, Option.none, Option.none, Option.none, Option.none⟩,
   ⟨some 5, Option.none, Option.none, Option.none, Option.none⟩]

/-- Witness for C9 at a concrete two-document set with years 3 and 5. -/
theorem C9_witness : plot_year_histogram docsYears = some (rangeInt 3 5) :=
  (C9_year_histogram_contiguous_range docsYears
    ⟨⟨some 3, Option.none, Option.none, Option.none, Option.none⟩,
      by simp [docsYears], 3, rfl⟩).1

/-- `np.amin` over the values of a nonempty array (numpy raises on an empty
array; the default `0` is never reached under the hypotheses used here). -/
def amin (l : List ℚ) : ℚ := (listMin l).getD 0

/-- `np.amax` over the values of a nonempty array. -/
def amax (l : List ℚ) : ℚ := (listMax l).getD 0

/-- The per-axis centering shift of `plot_topic_map` line 366:
`(np.amin(pos, axis=0) + np.amax(pos, axis=0)) / 2`. -/
def centerShift (pts : List (ℚ × ℚ)) : ℚ × ℚ :=
  ((amin (pts.map Prod.fst) + amax (pts.map Prod.fst)) / 2,
   (amin (pts.map Prod.snd) + amax (pts.map Prod.snd)) / 2)

/-- Line 366: `pos -= (np.amin(pos, axis=0) + np.amax(pos, axis=0)) / 2`. -/
def centered (pts : List (ℚ × ℚ)) : List (ℚ × ℚ) :=
  pts.map (fun p => (p.1 - (centerShift pts).1, p.2 - (centerShift pts).2))

/-- The divisor of line 367, `np.amax(np.abs(pos))`: the greatest absolute value
over all coordinates (both axes together) of the centered positions. -/
def maxAbs (pts : List (ℚ × ℚ)) : ℚ :=
  amax ((centered pts).map (fun p => max |p.1| |p.2|))

/-- Lines 367-369 on one coordinate: `pos /= np.amax(np.abs(pos))`, then
`pos = (pos * 0.5) + 0.5`, then `pos = (pos * 0.9) + 0.05`. -/
def normalizeCoord (M c : ℚ) : ℚ :=
  ((c / M) * (1 / 2) + 1 / 2) * (9 / 10) + 1 / 20

/-- The four normalization steps of `plot_topic_map` (lines 365-369) applied to
the externally computed 2D t-SNE positions. -/
def normalizePositions (pts : List (ℚ × ℚ)) : List (ℚ × ℚ) :=
  (centered pts).map (fun p =>
    (normalizeCoord (maxAbs pts) p.1, normalizeCoord (maxAbs pts) p.2))

theorem coord_le_maxAbs (pts : List (ℚ × ℚ)) :
    ∀ p ∈ centered pts, |p.1| ≤ maxAbs pts ∧ |p.2| ≤ maxAbs pts := by
  intro p hp
  have hmem : max |p.1| |p.2| ∈ (centered pts).map (fun p => max |p.1| |p.2|) :=
    List.mem_map_of_mem _ hp
  have hne : (centered pts).map (fun p => max |p.1| |p.2|) ≠ [] :=
    List.ne_nil_of_mem hmem
  obtain ⟨m, hm⟩ := listMax_isSome _ hne
  have hspec := listMax_spec _ m hm
  have hM : maxAbs pts = m := by rw [maxAbs, amax, hm]; rfl
  have hle : max |p.1| |p.2| ≤ m := hspec.2 _ hmem
  rw [hM]
  exact ⟨le_trans (le_max_left _ _) hle, le_trans (le_max_right _ _) hle⟩

theorem maxAbs_pos (pts : List (ℚ × ℚ)) (h : ∃ p ∈ pts, ∃ q ∈ pts, p ≠ q) :
    0 < maxAbs pts := by
  obtain ⟨p, hp, q, hq, hne⟩ := h
  have hcp : (p.1 - (centerShift pts).1, p.2 - (centerShift pts).2) ∈ centered pts :=
    List.mem_map_of_mem _ hp
  have hcq : (q.1 - (centerShift pts).1, q.2 - (centerShift pts).2) ∈ centered pts :=
    List.mem_map_of_mem _ hq
  have hbp := coord_le_maxAbs pts _ hcp
  have hbq := coord_le_maxAbs pts _ hcq
  simp only at hbp hbq
  have hcoord : p.1 ≠ q.1 ∨ p.2 ≠ q.2 := by
    by_contra hc
    push_neg at hc
    exact hne (Prod.ext hc.1 hc.2)
  rcases hcoord with hc | hc
  · have : p.1 - (centerShift pts).1 ≠ 0 ∨ q.1 - (centerShift pts).1 ≠ 0 := by
      by_contra hz
      push_neg at hz
      apply hc
      have h1 := hz.1
      have h2 := hz.2
      linarith [sub_eq_zero.mp h1, sub_eq_zero.mp h2]
    rcases this with hz | hz
    · exact lt_of_lt_of_le (abs_pos.mpr hz) hbp.1
    · exact lt_of_lt_of_le (abs_pos.mpr hz) hbq.1
  · have : p.2 - (centerShift pts).2 ≠ 0 ∨ q.2 - (centerShift pts).2 ≠ 0 := by
      by_contra hz
      push_neg at hz
      apply hc
      linarith [sub_eq_zero.mp hz.1, sub_eq_zero.mp hz.2]
    rcases this with hz | hz
    · exact lt_of_lt_of_le (abs_pos.mpr hz) hbp.2
    · exact lt_of_lt_of_le (abs_pos.mpr hz) hbq.2

theorem normalizeCoord_bounds (M c : ℚ) (hM : 0 < M) (hc : |c| ≤ M) :
    1 / 20 ≤ normalizeCoord M c ∧ normalizeCoord M c ≤ 19 / 20 := by
  obtain ⟨h1, h2⟩ := abs_le.mp hc
  have ht1 : c / M ≤ 1 := (div_le_one hM).mpr h2
  have ht2 : -1 ≤ c / M := by
    rw [le_div_iff₀ hM]
    linarith
  constructor
  · rw [normalizeCoord]
    nlinarith
  · rw [normalizeCoord]
    nlinarith

/-- C3: in `plot_topic_map`, after the four normalization steps applied to the
externally computed 2D positions, every coordinate of every point lies in
`[0.05, 0.95]` on each axis, provided the input positions are not all identical
(so the scaling divisor is nonzero). -/
theorem C3_normalized_positions_in_unit_square (pts : List (ℚ × ℚ))
    (h : ∃ p ∈ pts, ∃ q ∈ pts, p ≠ q) :
    ∀ r ∈ normalizePositions pts,
      1 / 20 ≤ r.1 ∧ r.1 ≤ 19 / 20 ∧ 1 / 20 ≤ r.2 ∧ r.2 ≤ 19 / 20 := by
  intro r hr
  obtain ⟨cp, hcp, rfl⟩ := List.mem_map.mp hr
  have hM := maxAbs_pos pts h
  have hb := coord_le_maxAbs pts cp hcp
  have h1 := normalizeCoord_bounds (maxAbs pts) cp.1 hM hb.1
  have h2 := normalizeCoord_bounds (maxAbs pts) cp.2 hM hb.2
  exact ⟨h1.1, h1.2, h2.1, h2.2⟩

/-- Witness for C3 at the positions `[(0,0), (1,0)]`, whose first normalized
point is `(1/20, 1/2)`. -/
theorem C3_witness :
    1 / 20 ≤ ((1 : ℚ) / 20, (1 : ℚ) / 2).1
      ∧ ((1 : ℚ) / 20, (1 : ℚ) / 2).1 ≤ 19 / 20
      ∧ 1 / 20 ≤ ((1 : ℚ) / 20, (1 : ℚ) / 2).2
      ∧ ((1 : ℚ) / 20, (1 : ℚ) / 2).2 ≤ 19 / 20 :=
  C3_normalized_positions_in_unit_square [(0, 0), (1, 0)]
    ⟨(0, 0), by simp, (1, 0), by simp, by decide⟩
    ((1 : ℚ) / 20, (1 : ℚ) / 2)
    (by
      have hev : normalizePositions [((0 : ℚ), (0 : ℚ)), (1, 0)]
          = [(1 / 20, 1 / 2), (19 / 20, 1 / 2)] := by
        norm_num [normalizePositions, centered, centerShift, maxAbs, amin, amax,
          listMin, listMax, normalizeCoord, abs_of_nonneg]
      rw [hev]
      simp)

/-- A fitted topic model as read by `plot.py`: a topic-to-token weight matrix
(`topic2token`, one weight row per topic), a document-to-topic weight matrix, a
token dictionary mapping token indices to words, and the topic count. -/
structure TopicModel where
  topic2token : Nat → List ℚ
  doc2topic : List (List ℚ)
  dictionary : Nat → String
  num_topics : Nat

/-- `np.argsort` of a weight row: the token indices sorted ascending by weight.
numpy's default sort is not stable, so the order among equal weights is
unspecified; a merge sort is one admissible model. -/
def argsort (row : List ℚ) : List Nat :=
  (List.range row.length).mergeSort
    (fun i j => decide (row.getD i 0 ≤ row.getD j 0))

/-- Python dict assignment `m[k] = v`: replaces the value of an existing key in
place, otherwise appends a new entry. -/
def setMapEntry : List (String × ℚ) → String → ℚ → List (String × ℚ)
  | [], k, v => [(k, v)]
  | e :: rest, k, v =>
      if e.1 = k then (k, v) :: rest else e :: setMapEntry rest k v

/-- The token-to-weight mapping that `generate_topic_cloud` (lines 292-297) hands
to the word-cloud library's `fit_words`: over the (at most) 100 highest-weight
token indices `np.argsort(model.topic2token[topicid])[-100:]`, each token of
positive weight is mapped to its weight divided by the row maximum
`np.amax(model.topic2token[topicid])`. -/
def cloudMapping (model : TopicModel) (topicid : Nat) : List (String × ℚ) :=
  ((argsort (model.topic2token topicid)).drop
      ((argsort (model.topic2token topicid)).length - 100)).foldl
    (fun m i =>
      if 0 < (model.topic2token topicid).getD i 0 then
        setMapEntry m (model.dictionary i)
          ((model.topic2token topicid).getD i 0 / amax (model.topic2token topicid))
      else m) []

theorem mem_setMapEntry (m : List (String × ℚ)) (k : String) (v : ℚ) :
    ∀ e ∈ setMapEntry m k v, e ∈ m ∨ e = (k, v) := by
  induction m with
  | nil =>
      intro e he
      simp only [setMapEntry, List.mem_singleton] at he
      exact Or.inr he
  | cons a rest ih =>
      intro e he
      by_cases ha : a.1 = k
      · simp only [setMapEntry, if_pos ha] at he
        rcases List.mem_cons.mp he with rfl | h
        · exact Or.inr rfl
        · exact Or.inl (List.mem_cons_of_mem a h)
      · simp only [setMapEntry, if_neg ha] at he
        rcases List.mem_cons.mp he with rfl | h
        · exact Or.inl (List.mem_cons_self e rest)
        · rcases ih e h with h' | h'
          · exact Or.inl (List.mem_cons_of_mem a h')
          · exact Or.inr h'

theorem length_setMapEntry (m : List (String × ℚ)) (k : String) (v : ℚ) :
    (setMapEntry m k v).length ≤ m.length + 1 := by
  induction m with
  | nil => simp [setMapEntry]
  | cons a rest ih =>
      by_cases ha : a.1 = k
      · simp [setMapEntry, if_pos ha]
      · simp only [setMapEntry, if_neg ha, List.length_cons]
        omega

theorem cloudFold_mem (model : TopicModel) (t : Nat) :
    ∀ (l : List Nat) (m0 : List (String × ℚ)),
      ∀ e ∈ l.foldl
        (fun m i =>
          if 0 < (model.topic2token t).getD i 0 then
            setMapEntry m (model.dictionary i)
              ((model.topic2token t).getD i 0 / amax (model.topic2token t))
          else m) m0,
        e ∈ m0 ∨ ∃ i, 0 < (model.topic2token t).getD i 0
          ∧ e = (model.dictionary i,
              (model.topic2token t).getD i 0 / amax (model.topic2token t))
  | [], m0 => by
      intro e he
      exact Or.inl he
  | i :: rest, m0 => by
      intro e he
      simp only [List.foldl_cons] at he
      by_cases hi : 0 < (model.topic2token t).getD i 0
      · rw [if_pos hi] at he
        rcases cloudFold_mem model t rest _ e he with h | h
        · rcases mem_setMapEntry _ _ _ e h with h' | h'
          · exact Or.inl h'
          · exact Or.inr ⟨i, hi, h'⟩
        · exact Or.inr h
      · rw [if_neg hi] at he
        exact cloudFold_mem model t rest m0 e he

theorem cloudFold_length (model : TopicModel) (t : Nat) :
    ∀ (l : List Nat) (m0 : List (String × ℚ)),
      (l.foldl
        (fun m i =>
          if 0 < (model.topic2token t).getD i 0 then
            setMapEntry m (model.dictionary i)
              ((model.topic2token t).getD i 0 / amax (model.topic2token t))
          else m) m0).length ≤ m0.length + l.length
  | [], m0 => by simp
  | i :: rest, m0 => by
      simp only [List.foldl_cons, List.length_cons]
      by_cases hi : 0 < (model.topic2token t).getD i 0
      · rw [if_pos hi]
        have h1 := cloudFold_length model t rest
          (setMapEntry m0 (model.dictionary i)
            ((model.topic2token t).getD i 0 / amax (model.topic2token t)))
        have h2 := length_setMapEntry m0 (model.dictionary i)
          ((model.topic2token t).getD i 0 / amax (model.topic2token t))
        omega
      · rw [if_neg hi]
        have h1 := cloudFold_length model t rest m0
        omega

/-- A concrete one-topic model with token weights `[2, 4]` and dictionary
`0 ↦ "a"`, `1 ↦ "b"`. -/
def exTM : TopicModel :=
  ⟨fun _ => [2, 4], [[1]], fun i => if i = 0 then "a" else "b", 1⟩

theorem cloudMapping_exTM_eval :
    cloudMapping exTM 0 = [("a", 1 / 2), ("b", 1)] := by
  have hsort : argsort (exTM.topic2token 0) = [0, 1] := by
    show (List.range 2).mergeSort _ = [0, 1]
    have hr : List.range 2 = [0, 1] := rfl
    rw [hr]
    apply List.mergeSort_of_sorted
    norm_num [exTM]
  rw [cloudMapping, hsort]
  norm_num [setMapEntry, amax, listMax, exTM]
  decide

/-- C4 counterexample: the mapping handed to `fit_words` is not the topic's raw
token weights: for a topic with weights `[2, 4]` the module maps token `"a"` to
`2 / 4 = 1/2` (its weight divided by the row maximum), not to its weight `2` —
the module itself normalizes by the maximum before delegating. -/
theorem C4_counterexample :
    ("a", (1 : ℚ) / 2) ∈ cloudMapping exTM 0
      ∧ ("a", (2 : ℚ)) ∉ cloudMapping exTM 0 := by
  rw [cloudMapping_exTM_eval]
  constructor
  · exact List.mem_cons_self _ _
  · intro h
    rcases List.mem_cons.mp h with h' | h'
    · have := congrArg Prod.snd h'
      norm_num at this
    · rcases List.mem_cons.mp h' with h'' | h''
      · have := congrArg Prod.fst h''
        simp at this
      · simp at h''

/-- C4 (amended): the mapping `generate_topic_cloud` hands to `fit_words` holds
at most 100 entries, and every entry maps a dictionary token of positive weight
to its weight divided by the topic's maximum token weight — so the module itself
performs this max-normalization (the further scaling to font sizes is delegated
to the word-cloud library). -/
theorem C4_cloud_weights_max_normalized (model : TopicModel) (t : Nat) :
    (cloudMapping model t).length ≤ 100
      ∧ ∀ e ∈ cloudMapping model t,
          ∃ i, 0 < (model.topic2token t).getD i 0
            ∧ e.1 = model.dictionary i
            ∧ e.2 = (model.topic2token t).getD i 0 / amax (model.topic2token t) := by
  constructor
  · have h1 := cloudFold_length model t
      ((argsort (model.topic2token t)).drop
        ((argsort (model.topic2token t)).length - 100)) []
    have h2 : ((argsort (model.topic2token t)).drop
        ((argsort (model.topic2token t)).length - 100)).length
        = (argsort (model.topic2token t)).length
          - ((argsort (model.topic2token t)).length - 100) := by
      rw [List.length_drop]
    simp only [List.length_nil, Nat.zero_add] at h1
    rw [cloudMapping]
    omega
  · intro e he
    rcases cloudFold_mem model t _ [] e he with h | ⟨i, hi, rfl⟩
    · exact absurd h (List.not_mem_nil e)
    · exact ⟨i, hi, rfl, rfl⟩

/-- Witness for C4 (amended) at the entry `("a", 1/2)` of the concrete model. -/
theorem C4_witness :
    ∃ i, 0 < (exTM.topic2token 0).getD i 0
      ∧ ("a", (1 : ℚ) / 2).1 = exTM.dictionary i
      ∧ ("a", (1 : ℚ) / 2).2
          = (exTM.topic2token 0).getD i 0 / amax (exTM.topic2token 0) :=
  (C4_cloud_weights_max_normalized exTM 0).2 ("a", (1 : ℚ) / 2)
    (by rw [cloudMapping_exTM_eval]; exact List.mem_cons_self _ _)

/-- An observable side effect of a plotting call on the supplied canvas:
title, axis labels, tick/limit setup, bar charts, images, dots and text. -/
inductive Effect where
  | setTitle (t : String)
  | setXLabel (s : String)
  | setYLabel (s : String)
  | clearTicks
  | setLim
  | barh (labels : List String) (values : List Nat)
  | bar (labels : List String) (values : List Nat)
  | imshow (cloud : List (String × ℚ))
  | scatter (x y : ℚ)
  | text (x y : ℚ) (s : String)
deriving DecidableEq, Repr

/-- `plot_statistic` (lines 31-70) as the list of canvas effects it performs:
the optional `plt.title`, then an axis label and one `barh` (default) or `bar`
(`vertical`) call over the selected keys — bar values are the table counts
`count[str(a)]`, tick labels are `str(key)[:50]`, and the horizontal variant
reverses the key order first. -/
def plot_statistic (f : Document → List Key) (docs : List Document) (x : XArg)
    (x_label : String) (count? : Option (List (String × Nat))) (vertical : Bool)
    (title : Option String) : List Effect :=
  let count := match count? with
    | some c => c
    | Option.none => buildCount f docs
  let titleEffs := match title with
    | some t => [Effect.setTitle t]
    | Option.none => []
  let keys := plotKeys count x
  if vertical then
    titleEffs ++ [Effect.setYLabel x_label,
      Effect.bar (keys.map (fun k => k.toStr.take 50))
        (keys.map (fun a => lookupCount count a.toStr))]
  else
    titleEffs ++ [Effect.setXLabel x_label,
      Effect.barh ((keys.reverse).map (fun k => k.toStr.take 50))
        ((keys.reverse).map (fun a => lookupCount count a.toStr))]

/-- The state threaded through a plotting call: the read-only inputs (document
set, topic model, frequency and dictionary inputs), the canvas drawn onto, and
the list of file paths accessed (extended only by the external cleaning
routine). -/
structure PlotState where
  docs : List Document
  tmodel : TopicModel
  freqs : List (List (Nat × Nat))
  dic : Nat → String
  canvas : List Effect
  files : List String

/-- Append draw effects to the canvas, leaving everything else untouched. -/
def drawOn (st : PlotState) (effs : List Effect) : PlotState :=
  { st with canvas := st.canvas ++ effs }

/-- `plot_statistic` as a state transformer: the document set is read from the
state and the effects are drawn onto the canvas. -/
def plot_statistic_st (f : Document → List Key) (x : XArg) (x_label : String)
    (count? : Option (List (String × Nat))) (vertical : Bool)
    (title : Option String) (st : PlotState) : PlotState :=
  drawOn st (plot_statistic f st.docs x x_label count? vertical title)

/-- `plot_year_histogram` (lines 86-104) as a state transformer: when the year
range computation raises (`min` of an empty key set) the exception propagates
before any drawing, leaving the state unchanged; otherwise the computed year
range is handed to `plot_statistic` as the `x` list. -/
def plot_year_histogram_st (st : PlotState) : PlotState :=
  match plot_year_histogram st.docs with
  | Option.none => st
  | some ys =>
      plot_statistic_st (fun p => [Key.ofIntOpt p.year])
        (XArg.list (ys.map Key.int)) "No. publications" Option.none true
        (some "Publications per year") st

/-- `plot_author_histogram` (lines 106-115); the Python `set` of author names
per document is modelled as deduplication, `p.authors or []` as the `[]`
default. -/
def plot_author_histogram_st (k : Int) (st : PlotState) : PlotState :=
  plot_statistic_st
    (fun p => (((p.authors.getD []).map Author.name).dedup).map Key.str)
    (XArg.int k) "No. publications" Option.none false
    (some "Publications per author") st

/-- `plot_author_affiliation_histogram` (lines 117-126). -/
def plot_author_affiliation_histogram_st (k : Int) (st : PlotState) : PlotState :=
  plot_statistic_st (fun p => (merge_author_affiliation p).map Key.str)
    (XArg.int k) "No. publications" Option.none false
    (some "Publications per author+affiliation") st

/-- `plot_number_authors_histogram` (lines 128-134): counts documents by their
number of distinct author names, over the fixed `x` list `range(1, 26)`. -/
def plot_number_authors_histogram_st (st : PlotState) : PlotState :=
  plot_statistic_st
    (fun p => [Key.int (((p.authors.getD []).map Author.name).dedup.length : Int)])
    (XArg.list ((List.range' 1 25).map (fun (n : Nat) => Key.int (n : Int))))
    "No. publications" Option.none true
    (some "Histogram for number of authors") st

/-- `plot_source_type_histogram` (lines 136-142). -/
def plot_source_type_histogram_st (st : PlotState) : PlotState :=
  plot_statistic_st (fun p => [Key.ofStrOpt p.source_type]) XArg.none
    "No. publications" Option.none false
    (some "Publication per source type") st

/-- Modelled from the spec: `clean_attributes` is the external cleaning routine
(in `litstudy/clean.py`, not under `src/`).  Per the spec it reads and persists
name-merge decisions at the given file path; its file access is what is
modelled, the merge format and logic being owned by that collaborator. -/
def clean_attributes_st (filename : String) (st : PlotState) : PlotState :=
  { st with files := st.files ++ [filename] }

/-- `plot_source_histogram` (lines 144-157): plots directly when `clean` is
False and otherwise delegates to the external cleaning routine. -/
def plot_source_histogram_st (k : Int) (filename : String) (clean : Bool)
    (st : PlotState) : PlotState :=
  if ! clean then
    plot_statistic_st (fun p => [Key.ofStrOpt p.source]) (XArg.int k)
      "No. publications" Option.none false
      (some "Publications per source") st
  else clean_attributes_st filename st

/-- The attribute selected by `get_affiliations_doc`. -/
inductive AffAttr where
  | name
  | country
  | affiliation_type

/-- Modelled from the spec: `get_affiliations_doc` lives in the external
cleaning module (`litstudy/clean.py`, not under `src/`).  Per the spec's data
model it selects, for a document, the requested attribute (name by default,
country, or affiliation type) of the affiliations of the document's authors. -/
def get_affiliations_doc (p : Document) (attr : AffAttr) : List Key :=
  ((p.authors.getD []).flatMap (fun a => a.affiliations.getD [])).map
    (fun aff =>
      match attr with
      | AffAttr.name => Key.str aff.name
      | AffAttr.country => Key.ofStrOpt aff.country
      | AffAttr.affiliation_type => Key.ofStrOpt aff.affiliation_type)

/-- `plot_affiliation_histogram` (lines 160-175). -/
def plot_affiliation_histogram_st (k : Int) (filename : String) (clean : Bool)
    (st : PlotState) : PlotState :=
  if ! clean then
    plot_statistic_st (fun p => get_affiliations_doc p AffAttr.name) (XArg.int k)
      "No. publications" Option.none false
      (some "Publications per affiliation") st
  else clean_attributes_st filename st

/-- `plot_country_histogram` (lines 177-185). -/
def plot_country_histogram_st (k : Int) (st : PlotState) : PlotState :=
  plot_statistic_st (fun p => get_affiliations_doc p AffAttr.country) (XArg.int k)
    "No. publications" Option.none false
    (some "Publications per country of affiliations") st

/-- `plot_affiliation_type_histogram` (lines 187-195). -/
def plot_affiliation_type_histogram_st (x : Int) (st : PlotState) : PlotState :=
  plot_statistic_st (fun p => get_affiliations_doc p AffAttr.affiliation_type)
    (XArg.int x) "No. publications" Option.none false
    (some "Publications per type of affiliation") st

/-- `plot_language_histogram` (lines 197-204). -/
def plot_language_histogram_st (st : PlotState) : PlotState :=
  plot_statistic_st (fun p => [Key.ofStrOpt p.language]) XArg.none
    "No. publications" Option.none false
    (some "Publications per source language") st

/-- The count table built by `plot_words_histogram` and `plot_bigram_histogram`
(lines 213-219 and 230-236): all per-document frequency pairs concatenated, then
`count[str(dic[word])] += freq`. -/
def freqCount (freqs : List (List (Nat × Nat))) (dic : Nat → String) :
    List (String × Nat) :=
  (freqs.foldl (fun acc doc_freq => acc ++ doc_freq) []).foldl
    (fun t wf => addCount t (dic wf.1) wf.2) []

/-- `plot_words_histogram` (lines 206-221): the source passes `fun=None` and
`docset=None` because the prebuilt `count` table is supplied; the unused
selector is modelled as the empty selector. -/
def plot_words_histogram_st (k : Int) (st : PlotState) : PlotState :=
  plot_statistic_st (fun _ => []) (XArg.int k) "No. occurences"
    (some (freqCount st.freqs st.dic)) false Option.none st

/-- `plot_bigram_histogram` (lines 223-238): identical to the word histogram up
to the axis label. -/
def plot_bigram_histogram_st (k : Int) (st : PlotState) : PlotState :=
  plot_statistic_st (fun _ => []) (XArg.int k) "No. publications"
    (some (freqCount st.freqs st.dic)) false Option.none st

/-- `plot_topic_cloud` (lines 264-277): clears the ticks and draws the image of
the word cloud generated from the topic's max-normalized token weights. -/
def plot_topic_cloud_st (topicid : Nat) (st : PlotState) : PlotState :=
  drawOn st [Effect.clearTicks, Effect.imshow (cloudMapping st.tmodel topicid)]

/-- `plot_topic_clouds` (lines 245-261): one subplot per topic of the model,
each drawn by `plot_topic_cloud`. -/
def plot_topic_clouds_st (st : PlotState) : PlotState :=
  (List.range st.tmodel.num_topics).foldl (fun s i => plot_topic_cloud_st i s) st

/-- `draw_dot` (lines 319-343): a scatter dot at `p` plus the topic's letter
label centered on it.  The zorder bookkeeping orders draws and is not part of
the canvas contents modelled here; the out-of-range label lookup (which would
raise in Python for more than 26 topics) is modelled with a default. -/
def draw_dot_effs (x y : ℚ) (t : Nat) : List Effect :=
  [Effect.scatter x y,
   Effect.text x y (String.mk ["ABCDEFGHIJKLMNOPQRSTUVWXYZ".toList.getD t 'A'])]

/-- `np.argmax`: the first index attaining the maximum value. -/
def argmaxIdx (l : List ℚ) : Nat :=
  (List.range l.length).foldl
    (fun best i => if l.getD best 0 < l.getD i 0 then i else best) 0

/-- `np.average(model.doc2topic, axis=0)` at column `t`. -/
def colAvg (m : List (List ℚ)) (t : Nat) : ℚ :=
  ((m.map (fun row => row.getD t 0)).foldl (fun a b => a + b) 0) / (m.length : ℚ)

/-- `model.doc2topic[i] - avg`: document `i`'s topic weights minus the column
averages (line 381). -/
def docTopicScore (m : List (List ℚ)) (i : Nat) : List ℚ :=
  (List.range (m.getD i []).length).map
    (fun t => (m.getD i []).getD t 0 - colAvg m t)

/-- The legend label of topic `i` (line 388): the topic's top three tokens by
weight, joined by `', '`. -/
def topicLabel (tm : TopicModel) (dic : Nat → String) (i : Nat) : String :=
  String.intercalate ", " ((((argsort (tm.topic2token i)).reverse).take 3).map dic)

/-- `plot_topic_map` (lines 345-392) as a state transformer.  The numerical
work is delegated: `create_tfidf` (external `litstudy/nlp.py`, not under
`src/`), `TruncatedSVD` and `TSNE` (sklearn) produce the 2D positions, and
`np.random.permutation` the drawing order; they enter as the oracle inputs
`pos` and `perm`.  The function normalizes the positions, clears ticks and sets
the limits, draws one dot per document at its normalized position (topic id =
argmax of the document's mean-adjusted topic weights), then draws the legend. -/
def plot_topic_map_st (pos : List (ℚ × ℚ)) (perm : List Nat) (st : PlotState) :
    PlotState :=
  drawOn st ([Effect.clearTicks, Effect.setLim]
    ++ perm.flatMap (fun i =>
        draw_dot_effs ((normalizePositions pos).getD i (0, 0)).1
          ((normalizePositions pos).getD i (0, 0)).2
          (argmaxIdx (docTopicScore st.tmodel.doc2topic i)))
    ++ (List.range st.tmodel.num_topics).flatMap (fun i =>
        draw_dot_effs (3 / 200) (19 / 20 - (i : ℚ) * (1 / 20)) i
          ++ [Effect.text (3 / 100) (19 / 20 - (i : ℚ) * (1 / 20))
              (topicLabel st.tmodel st.dic i)]))

/-- A plotting call only reads the document set, topic model, frequency and
dictionary inputs: they are identical before and after the call. -/
def readsOnly (f : PlotState → PlotState) : Prop :=
  ∀ st : PlotState, (f st).docs = st.docs ∧ (f st).tmodel = st.tmodel
    ∧ (f st).freqs = st.freqs ∧ (f st).dic = st.dic

/-- A plotting call performs no file access: the accessed-files list is
unchanged. -/
def noFileAccess (f : PlotState → PlotState) : Prop :=
  ∀ st : PlotState, (f st).files = st.files

theorem clouds_foldl_fields : ∀ (l : List Nat) (st : PlotState),
    ((l.foldl (fun s i => plot_topic_cloud_st i s) st).docs = st.docs
      ∧ (l.foldl (fun s i => plot_topic_cloud_st i s) st).tmodel = st.tmodel
      ∧ (l.foldl (fun s i => plot_topic_cloud_st i s) st).freqs = st.freqs
      ∧ (l.foldl (fun s i => plot_topic_cloud_st i s) st).dic = st.dic)
      ∧ (l.foldl (fun s i => plot_topic_cloud_st i s) st).files = st.files
  | [], st => ⟨⟨rfl, rfl, rfl, rfl⟩, rfl⟩
  | i :: rest, st => by
      simp only [List.foldl_cons]
      exact clouds_foldl_fields rest (plot_topic_cloud_st i st)

/-- C8: every plotting function of the module leaves its input entities
unchanged: for every call, the document set (with its documents, authors and
affiliations), the topic model, and the frequency/dictionary inputs are only
read, never mutated — each call only appends to the canvas or, for the cleaning
delegation, to the accessed-files list. -/
theorem C8_plotting_reads_inputs_only (f : Document → List Key) (x : XArg)
    (xl : String) (c? : Option (List (String × Nat))) (v : Bool)
    (ttl : Option String) (k : Int) (filename : String) (clean : Bool)
    (topicid : Nat) (pos : List (ℚ × ℚ)) (perm : List Nat) :
    readsOnly (plot_statistic_st f x xl c? v ttl)
      ∧ readsOnly plot_year_histogram_st
      ∧ readsOnly (plot_author_histogram_st k)
      ∧ readsOnly (plot_author_affiliation_histogram_st k)
      ∧ readsOnly plot_number_authors_histogram_st
      ∧ readsOnly plot_source_type_histogram_st
      ∧ readsOnly (plot_source_histogram_st k filename clean)
      ∧ readsOnly (plot_affiliation_histogram_st k filename clean)
      ∧ readsOnly (plot_country_histogram_st k)
      ∧ readsOnly (plot_affiliation_type_histogram_st k)
      ∧ readsOnly plot_language_histogram_st
      ∧ readsOnly (plot_words_histogram_st k)
      ∧ readsOnly (plot_bigram_histogram_st k)
      ∧ readsOnly (plot_topic_cloud_st topicid)
      ∧ readsOnly plot_topic_clouds_st
      ∧ readsOnly (plot_topic_map_st pos perm) := by
  refine ⟨?_, ?_, ?_, ?_, ?_, ?_, ?_, ?_, ?_, ?_, ?_, ?_, ?_, ?_, ?_, ?_⟩
  · intro st; exact ⟨rfl, rfl, rfl, rfl⟩
  · intro st
    cases h : plot_year_histogram st.docs with
    | none => simp [plot_year_histogram_st, h]
    | some ys =>
        simp [plot_year_histogram_st, h, plot_statistic_st, drawOn]
  · intro st; exact ⟨rfl, rfl, rfl, rfl⟩
  · intro st; exact ⟨rfl, rfl, rfl, rfl⟩
  · intro st; exact ⟨rfl, rfl, rfl, rfl⟩
  · intro st; exact ⟨rfl, rfl, rfl, rfl⟩
  · intro st
    cases clean with
    | false => exact ⟨rfl, rfl, rfl, rfl⟩
    | true => exact ⟨rfl, rfl, rfl, rfl⟩
  · intro st
    cases clean with
    | false => exact ⟨rfl, rfl, rfl, rfl⟩
    | true => exact ⟨rfl, rfl, rfl, rfl⟩
  · intro st; exact ⟨rfl, rfl, rfl, rfl⟩
  · intro st; exact ⟨rfl, rfl, rfl, rfl⟩
  · intro st; exact ⟨rfl, rfl, rfl, rfl⟩
  · intro st; exact ⟨rfl, rfl, rfl, rfl⟩
  · intro st; exact ⟨rfl, rfl, rfl, rfl⟩
  · intro st; exact ⟨rfl, rfl, rfl, rfl⟩
  · intro st; exact (clouds_foldl_fields (List.range st.tmodel.num_topics) st).1
  · intro st; exact ⟨rfl, rfl, rfl, rfl⟩

/-- C6: no plotting function accesses a file itself — the only file access
happens inside the delegated external cleaning routine, which
`plot_source_histogram` and `plot_affiliation_histogram` invoke exactly when
`clean` is left True (appending exactly the given decisions file), while every
other plotting call, and the non-cleaning branches, leave the accessed-files
list unchanged and only draw onto the canvas. -/
theorem C6_files_only_via_cleaning (f : Document → List Key) (x : XArg)
    (xl : String) (c? : Option (List (String × Nat))) (v : Bool)
    (ttl : Option String) (k : Int) (filename : String) (clean : Bool)
    (topicid : Nat) (pos : List (ℚ × ℚ)) (perm : List Nat) :
    noFileAccess (plot_statistic_st f x xl c? v ttl)
      ∧ noFileAccess plot_year_histogram_st
      ∧ noFileAccess (plot_author_histogram_st k)
      ∧ noFileAccess (plot_author_affiliation_histogram_st k)
      ∧ noFileAccess plot_number_authors_histogram_st
      ∧ noFileAccess plot_source_type_histogram_st
      ∧ noFileAccess (plot_country_histogram_st k)
      ∧ noFileAccess (plot_affiliation_type_histogram_st k)
      ∧ noFileAccess plot_language_histogram_st
      ∧ noFileAccess (plot_words_histogram_st k)
      ∧ noFileAccess (plot_bigram_histogram_st k)
      ∧ noFileAccess (plot_topic_cloud_st topicid)
      ∧ noFileAccess plot_topic_clouds_st
      ∧ noFileAccess (plot_topic_map_st pos perm)
      ∧ (∀ st, (plot_source_histogram_st k filename clean st).files
          = st.files ++ (if clean then [filename] else []))
      ∧ (∀ st, (plot_affiliation_histogram_st k filename clean st).files
          = st.files ++ (if clean then [filename] else [])) := by
  refine ⟨?_, ?_, ?_, ?_, ?_, ?_, ?_, ?_, ?_, ?_, ?_, ?_, ?_, ?_, ?_, ?_⟩
  · intro st; rfl
  · intro st
    cases h : plot_year_histogram st.docs with
    | none => simp [plot_year_histogram_st, h]
    | some ys => simp [plot_year_histogram_st, h, plot_statistic_st, drawOn]
  · intro st; rfl
  · intro st; rfl
  · intro st; rfl
  · intro st; rfl
  · intro st; rfl
  · intro st; rfl
  · intro st; rfl
  · intro st; rfl
  · intro st; rfl
  · intro st; rfl
  · intro st; exact (clouds_foldl_fields (List.range st.tmodel.num_topics) st).2
  · intro st; rfl
  · intro st
    cases clean with
    | false => simp [plot_source_histogram_st, plot_statistic_st, drawOn]
    | true => simp [plot_source_histogram_st, clean_attributes_st]
  · intro st
    cases clean with
    | false => simp [plot_affiliation_histogram_st, plot_statistic_st, drawOn]
    | true => simp [plot_affiliation_histogram_st, clean_attributes_st]

end LitStudy
